import Mathlib

/-!
Verification of the response-normalization pipeline of the flask backend
(src/app.py).  Python strings are shallowly embedded as lists of Unicode
code points (`PyStr`), bytes objects as lists of naturals below 256.
Each definition mirrors one step of the source; doc comments name the
source function and lines it embeds.  Text written in comments uses no
quote characters; code points are given numerically, with the decoded
text noted alongside.
-/

/-- Model of a Python `str`: a sequence of Unicode code points (naturals).
Python strings may hold any code point below 0x110000, surrogates included,
so no validity bound is imposed by the type. -/
abbrev PyStr := List Nat

/-- Code points of the marker token data= used by `clean_and_format_response`
step 1 (src/app.py line 48). -/
def sDataEq : PyStr := [100, 97, 116, 97, 61]

/-- Code points of http (start of the URL pattern in src/app.py line 61). -/
def sHttp : PyStr := [104, 116, 116, 112]

/-- Code points of the three characters colon slash slash. -/
def sColonSlashes : PyStr := [58, 47, 47]

/-- Code points of the literal Source: from the regex in src/app.py line 61. -/
def sSourceColon : PyStr := [83, 111, 117, 114, 99, 101, 58]

/-- Code points of newline followed by Date: and a space, from the regex in
src/app.py line 61. -/
def sNlDate : PyStr := [10, 68, 97, 116, 101, 58, 32]

/-- Code points of two newline characters. -/
def sNlNl : PyStr := [10, 10]

/-- The set of characters stripped by `raw_response.strip` with argument
left-paren right-paren single-quote in src/app.py line 52: code points 40,
41 and 39. -/
def parenQuoteSet : List Nat := [40, 41, 39]

/-- Characters deleted by the third pass of `remove_markdown`
(src/app.py line 32): hash, asterisk, underscore, the two square brackets
and the two parentheses. -/
def mdSymbolSet : List Nat := [35, 42, 95, 91, 93, 40, 41]

/-- Whitespace set used by Python `str.strip` and by the regex class
backslash-s / backslash-S on `str` patterns: the CPython
`Py_UNICODE_ISSPACE` set. -/
def isPySpace (c : Nat) : Bool :=
  (9 ≤ c && c ≤ 13) || (28 ≤ c && c ≤ 31) || c == 32 || c == 133 || c == 160 ||
  c == 5760 || (8192 ≤ c && c ≤ 8202) || c == 8232 || c == 8233 ||
  c == 8239 || c == 8287 || c == 12288

/-- Python `str.strip()` with no argument: drop leading and trailing
whitespace. -/
def pyStripWs (s : PyStr) : PyStr :=
  ((s.dropWhile isPySpace).reverse.dropWhile isPySpace).reverse

/-- Python `str.strip(chars)`: drop the leading and trailing run of
characters belonging to the given set. -/
def stripBoth (set : List Nat) (s : PyStr) : PyStr :=
  ((s.dropWhile (fun c => set.contains c)).reverse.dropWhile
    (fun c => set.contains c)).reverse

/-- Boolean substring-at-the-front test for code point lists. -/
def isPre : PyStr → PyStr → Bool
  | [], _ => true
  | _ :: _, [] => false
  | a :: p, b :: s => a == b && isPre p s

/-- Index of the first occurrence of `needle` inside the second argument,
scanning start positions from the left, as a Python regex or `str.find`
would. -/
def findSub (needle : PyStr) : PyStr → Option Nat
  | [] => if needle.isEmpty then some 0 else none
  | a :: t => if isPre needle (a :: t) then some 0
              else (findSub needle t).map (fun i => i + 1)

/-- Python membership test needle in s for strings. -/
def hasSub (needle : PyStr) (s : PyStr) : Bool :=
  (findSub needle s).isSome

/-- Remainder after a literal pattern at the front, or `none` when the
pattern does not start there. -/
def stripPre : PyStr → PyStr → Option PyStr
  | [], s => some s
  | _ :: _, [] => none
  | a :: p, b :: s => if a = b then stripPre p s else none

/-- First pass of `remove_markdown` (src/app.py line 29), helper: given the
text right after an opening double-asterisk, the length of the shortest
prefix that is followed by a closing double-asterisk, where the prefix may
not contain a newline (the pattern uses a lazy dot without DOTALL). -/
def findCloseBold : PyStr → Option Nat
  | [] => none
  | [_] => none
  | a :: b :: t =>
    if a = 42 ∧ b = 42 then some 0
    else if a = 10 then none
    else (findCloseBold (b :: t)).map (fun j => j + 1)

/-- Length of the leftmost-shortest match of the bold pattern
double-asterisk lazy-dots double-asterisk when it starts at the front of
the text, else `none`. -/
def boldMatchLen : PyStr → Option Nat
  | a :: b :: rest =>
    if a = 42 ∧ b = 42 then (findCloseBold rest).map (fun j => j + 4) else none
  | _ => none

/-- Fuel-indexed worker for the first pass of `remove_markdown`: delete
every leftmost non-overlapping match of the bold pattern.  The fuel is the
length of the text; every step consumes at least one character, so the
fuel never runs out before the text does. -/
def removeBoldAux : Nat → PyStr → PyStr
  | 0, s => s
  | _ + 1, [] => []
  | fuel + 1, a :: t =>
    match boldMatchLen (a :: t) with
    | some L => removeBoldAux fuel (List.drop L (a :: t))
    | none => a :: removeBoldAux fuel t

/-- First pass of `remove_markdown` (src/app.py line 29): `re.sub` of the
bold pattern with the empty replacement, deleting each matched span
whole, inner text included. -/
def removeBold (s : PyStr) : PyStr := removeBoldAux s.length s

/-- Second pass of `remove_markdown` (src/app.py line 31): `re.sub` of the
two-character pattern asterisk-or-hyphen followed by a space, with the
empty replacement; the pattern carries no line anchor, so it matches at
any position. -/
def removeBullet : PyStr → PyStr
  | [] => []
  | [a] => [a]
  | a :: b :: t2 =>
    if (a = 42 ∨ a = 45) ∧ b = 32 then removeBullet t2
    else a :: removeBullet (b :: t2)

/-- Third pass of `remove_markdown` (src/app.py line 32): delete every
character of `mdSymbolSet`. -/
def removeSym (s : PyStr) : PyStr :=
  s.filter (fun c => !(mdSymbolSet.contains c))

/-- Fourth pass of `remove_markdown` (src/app.py line 33): `re.sub` of one
or more newlines with a single newline, collapsing each maximal newline
run to one. -/
def collapseNl : PyStr → PyStr
  | [] => []
  | [a] => [a]
  | a :: b :: t2 =>
    if a = 10 ∧ b = 10 then collapseNl (b :: t2) else a :: collapseNl (b :: t2)

/-- The function `remove_markdown` of src/app.py lines 28 to 34
(the MarkdownStripper of the spec): the four regex passes followed by a
whitespace strip. -/
def remove_markdown (text : PyStr) : PyStr :=
  pyStripWs (collapseNl (removeSym (removeBullet (removeBold text))))

/-- Python `str.split` on a single newline character. -/
def splitNl : PyStr → List PyStr
  | [] => [[]]
  | a :: t =>
    if a = 10 then [] :: splitNl t
    else
      match splitNl t with
      | [] => [[a]]
      | h :: r => (a :: h) :: r

/-- Python `str.join` over a list of strings. -/
def joinWith (sep : PyStr) : List PyStr → PyStr
  | [] => []
  | [p] => p
  | p :: q :: ps => p ++ sep ++ joinWith sep (q :: ps)

/-- The function `format_text` of src/app.py lines 36 to 40
(the ParagraphFormatter of the spec): split on newlines, strip each
section, drop the blank ones, rejoin with a double newline. -/
def format_text (text : PyStr) : PyStr :=
  joinWith sNlNl (((splitNl text).map pyStripWs).filter (fun p => !p.isEmpty))

/-- Fuel-indexed remainder after the last non-overlapping occurrence of the
marker data=, as computed by `raw_response.split` on data= followed by
taking the last element (src/app.py line 48).  The marker has no
self-overlap, so the last element of the split is the suffix after the
last occurrence.  Each step drops at least five characters, so a fuel of
the length of the text never runs out early. -/
def afterLastMarkerAux : Nat → PyStr → PyStr
  | 0, s => s
  | fuel + 1, s =>
    match findSub sDataEq s with
    | none => s
    | some i => afterLastMarkerAux fuel (List.drop (i + 5) s)

/-- Remainder of the text after the last occurrence of the marker data=. -/
def afterLastMarker (s : PyStr) : PyStr := afterLastMarkerAux s.length s

/-- Steps 1 and 2 of `clean_and_format_response` (src/app.py lines 47 to 52),
the EnvelopeUnwrapper of the spec: when the marker data= occurs, keep the
whitespace-stripped suffix after its last occurrence; in every case strip
the outer run of parentheses and single quotes. -/
def envelopeUnwrap (raw : PyStr) : PyStr :=
  stripBoth parenQuoteSet
    (if hasSub sDataEq raw then pyStripWs (afterLastMarker raw) else raw)

/-- Value of a hexadecimal digit code point, or `none`. -/
def hexVal (c : Nat) : Option Nat :=
  if 48 ≤ c ∧ c ≤ 57 then some (c - 48)
  else if 97 ≤ c ∧ c ≤ 102 then some (c - 87)
  else if 65 ≤ c ∧ c ≤ 70 then some (c - 55)
  else none

/-- Newline normalization performed by `compile` on the source text handed
to `ast.literal_eval`: carriage-return newline and lone carriage return
both become a single newline. -/
def normNl : PyStr → PyStr
  | [] => []
  | [a] => if a = 13 then [10] else [a]
  | a :: b :: t =>
    if a = 13 then
      if b = 10 then 10 :: normNl t else 10 :: normNl (b :: t)
    else a :: normNl (b :: t)

/-- Model of `ast.literal_eval` applied to the text embedded between triple
single quotes (src/app.py line 56): decode the standard backslash escape
sequences; fail (returning `none`, which the caller treats as the raised
exception) when the payload would terminate the literal early or leave an
unterminated remainder.  A trailing run of exactly two quotes tokenizes as
the closing quotes plus an adjacent empty literal and is dropped; a
trailing single quote or any quote run of three or more makes the source
unparsable.  Named escapes (backslash N) consult the Unicode name table
and are modelled as failure; unknown escapes keep the backslash and the
character, as CPython does. -/
def tqDecode : PyStr → Option PyStr
  | [] => some []
  | 92 :: t =>
    match t with
    | [] => none
    | 110 :: t2 => (tqDecode t2).map (fun r => 10 :: r)
    | 116 :: t2 => (tqDecode t2).map (fun r => 9 :: r)
    | 114 :: t2 => (tqDecode t2).map (fun r => 13 :: r)
    | 92 :: t2 => (tqDecode t2).map (fun r => 92 :: r)
    | 39 :: t2 => (tqDecode t2).map (fun r => 39 :: r)
    | 34 :: t2 => (tqDecode t2).map (fun r => 34 :: r)
    | 97 :: t2 => (tqDecode t2).map (fun r => 7 :: r)
    | 98 :: t2 => (tqDecode t2).map (fun r => 8 :: r)
    | 102 :: t2 => (tqDecode t2).map (fun r => 12 :: r)
    | 118 :: t2 => (tqDecode t2).map (fun r => 11 :: r)
    | 10 :: t2 => tqDecode t2
    | 120 :: t2 =>
      match t2 with
      | h1 :: h2 :: t3 =>
        match hexVal h1, hexVal h2 with
        | some v1, some v2 => (tqDecode t3).map (fun r => (v1 * 16 + v2) :: r)
        | _, _ => none
      | _ => none
    | 117 :: t2 =>
      match t2 with
      | h1 :: h2 :: h3 :: h4 :: t3 =>
        match hexVal h1, hexVal h2, hexVal h3, hexVal h4 with
        | some v1, some v2, some v3, some v4 =>
          (tqDecode t3).map (fun r => (v1 * 4096 + v2 * 256 + v3 * 16 + v4) :: r)
        | _, _, _, _ => none
      | _ => none
    | 85 :: t2 =>
      match t2 with
      | h1 :: h2 :: h3 :: h4 :: h5 :: h6 :: h7 :: h8 :: t3 =>
        match hexVal h1, hexVal h2, hexVal h3, hexVal h4,
              hexVal h5, hexVal h6, hexVal h7, hexVal h8 with
        | some v1, some v2, some v3, some v4, some v5, some v6, some v7, some v8 =>
          let v := ((((((v1 * 16 + v2) * 16 + v3) * 16 + v4) * 16 + v5) * 16 + v6)
                    * 16 + v7) * 16 + v8
          if v < 1114112 then (tqDecode t3).map (fun r => v :: r) else none
        | _, _, _, _, _, _, _, _ => none
      | _ => none
    | 78 :: _ => none
    | e :: t2 =>
      if 48 ≤ e ∧ e ≤ 55 then
        match t2 with
        | [] => some [e - 48]
        | d2 :: t3 =>
          if 48 ≤ d2 ∧ d2 ≤ 55 then
            match t3 with
            | [] => some [(e - 48) * 8 + (d2 - 48)]
            | d3 :: t4 =>
              if 48 ≤ d3 ∧ d3 ≤ 55 then
                (tqDecode t4).map
                  (fun r => ((e - 48) * 64 + (d2 - 48) * 8 + (d3 - 48)) :: r)
              else (tqDecode (d3 :: t4)).map (fun r => ((e - 48) * 8 + (d2 - 48)) :: r)
          else (tqDecode (d2 :: t3)).map (fun r => (e - 48) :: r)
      else (tqDecode t2).map (fun r => 92 :: e :: r)
  | 39 :: t =>
    match t with
    | [] => none
    | [39] => some []
    | 39 :: 39 :: _ => none
    | b :: t2 => (tqDecode (b :: t2)).map (fun r => 39 :: r)
  | a :: t => (tqDecode t).map (fun r => a :: r)

/-- Step 3 of `clean_and_format_response` (src/app.py lines 55 to 58), the
EscapeDecoder of the spec: try the literal evaluation; on failure keep the
text unchanged. -/
def escapeDecode (p : PyStr) : PyStr := (tqDecode (normNl p)).getD p

/-- Length of the leading run of non-whitespace characters, the span the
greedy backslash-S-plus quantifier takes (only the maximal run can be
followed by the mandatory newline of the pattern, since every shorter run
ends before a non-whitespace character). -/
def nonSpaceRunLen : PyStr → Nat
  | [] => 0
  | a :: t => if isPySpace a then 0 else nonSpaceRunLen t + 1

/-- Lazy search of the tail pattern of the news regex: the pair of the
length matched by the first lazy dot-star (distance to the newline-Date
block) and the length matched by the second lazy dot-star (distance from
after that block to the first double newline).  Mirrors the backtracking
order of the regex engine: the first component grows first, and a
candidate is accepted only when a double newline exists after it. -/
def findDTB : PyStr → Option (Nat × Nat)
  | [] => none
  | a :: t =>
    if isPre sNlDate (a :: t) then
      match findSub sNlNl (List.drop 7 (a :: t)) with
      | some j2 => some (0, j2)
      | none => (findDTB t).map (fun p => (p.1 + 1, p.2))
    else (findDTB t).map (fun p => (p.1 + 1, p.2))

/-- Attempted match of the news boundary regex of src/app.py line 61
anchored at the front of the text, returning the match length.  The
pattern is http, optional s, colon-slash-slash, one or more non-space
characters, newline, Source:, lazy any-text, newline-Date-colon-space,
lazy any-text, double newline; the two lazy spans may cross newlines
because the search runs under DOTALL. -/
def matchFrom (s : PyStr) : Option Nat :=
  match stripPre sHttp s with
  | none => none
  | some t1 =>
    let hasS : Bool := match t1 with | 115 :: _ => true | _ => false
    let sl := if hasS then 1 else 0
    let t2 := if hasS then t1.drop 1 else t1
    match stripPre sColonSlashes t2 with
    | none => none
    | some t3 =>
      let k := nonSpaceRunLen t3
      if k = 0 then none
      else
        match List.drop k t3 with
        | 10 :: t4 =>
          match stripPre sSourceColon t4 with
          | none => none
          | some t5 =>
            match findDTB t5 with
            | none => none
            | some (j, j2) => some (4 + sl + 3 + k + 1 + 7 + j + 7 + j2 + 2)
        | _ => none

/-- Leftmost search of the news boundary regex over the whole text,
returning the end offset of the first match, as `re.search` followed by
`match.end()` does (src/app.py lines 61 to 64). -/
def searchEnd : PyStr → Option Nat
  | [] => none
  | a :: t =>
    match matchFrom (a :: t) with
    | some L => some L
    | none => (searchEnd t).map (fun i => i + 1)

/-- Step 5 newline collapsing of `clean_and_format_response`
(src/app.py lines 70 to 71): every maximal run of three or more newlines
becomes exactly two. -/
def collapse3 : PyStr → PyStr
  | [] => []
  | [a] => [a]
  | [a, b] => [a, b]
  | a :: b :: c :: t =>
    if a = 10 ∧ b = 10 ∧ c = 10 then collapse3 (b :: c :: t)
    else a :: collapse3 (b :: c :: t)

/-- One hundred hyphen characters, the separator of src/app.py line 73. -/
def dashes100 : PyStr := List.replicate 100 45

/-- Steps 4 and 5 of `clean_and_format_response` (src/app.py lines 60 to 73),
the SectionSplitter of the spec: search the boundary pattern; without a
match return the stripped text; with a match strip both regions, collapse
their long newline runs and rejoin them around the hundred-dash line. -/
def sectionSplit (decoded : PyStr) : PyStr :=
  match searchEnd decoded with
  | none => pyStripWs decoded
  | some e =>
    collapse3 (pyStripWs (List.take e decoded)) ++ sNlNl ++ dashes100 ++ sNlNl ++
      collapse3 (pyStripWs (List.drop e decoded))

/-- The function `clean_and_format_response` of src/app.py lines 42 to 73,
written as the let-chain of the five source steps. -/
def clean_and_format_response (raw0 : PyStr) : PyStr :=
  let raw1 := if hasSub sDataEq raw0 then pyStripWs (afterLastMarker raw0) else raw0
  let raw2 := stripBoth parenQuoteSet raw1
  let raw3 := (tqDecode (normNl raw2)).getD raw2
  sectionSplit raw3

/-- UTF-8 encoding of one code point, as Python `str.encode` produces it:
one to four bytes, failing on surrogates and on values past the Unicode
range. -/
def encodeChar (v : Nat) : Option (List Nat) :=
  if v < 128 then some [v]
  else if v < 2048 then some [192 + v / 64, 128 + v % 64]
  else if v < 65536 then
    if 55296 ≤ v ∧ v < 57344 then none
    else some [224 + v / 4096, 128 + v / 64 % 64, 128 + v % 64]
  else if v < 1114112 then
    some [240 + v / 262144, 128 + v / 4096 % 64, 128 + v / 64 % 64, 128 + v % 64]
  else none

/-- Python `str.encode` with the utf-8 codec: encode every code point,
failing when any one fails. -/
def utf8Encode : PyStr → Option (List Nat)
  | [] => some []
  | v :: t =>
    match encodeChar v with
    | none => none
    | some e =>
      match utf8Encode t with
      | none => none
      | some r => some (e ++ r)

/-- Single step of the strict utf-8 decoder: given the lead byte and the
following bytes, the decoded code point and the remaining bytes, or `none`
on a malformed sequence (bad lead byte, bad continuation byte, overlong
form, surrogate, value past the Unicode range or truncated input). -/
def utf8Step (b : Nat) (bs : List Nat) : Option (Nat × List Nat) :=
  if b < 128 then some (b, bs)
  else if b < 194 then none
  else if b < 224 then
    match bs with
    | [] => none
    | c1 :: bs2 =>
      if 128 ≤ c1 ∧ c1 < 192 then some ((b - 192) * 64 + (c1 - 128), bs2)
      else none
  else if b < 240 then
    match bs with
    | c1 :: c2 :: bs2 =>
      if (128 ≤ c1 ∧ c1 < 192) ∧ (128 ≤ c2 ∧ c2 < 192) then
        let v := (b - 224) * 4096 + (c1 - 128) * 64 + (c2 - 128)
        if v < 2048 ∨ (55296 ≤ v ∧ v < 57344) then none
        else some (v, bs2)
      else none
    | _ => none
  else if b < 245 then
    match bs with
    | c1 :: c2 :: c3 :: bs2 =>
      if (128 ≤ c1 ∧ c1 < 192) ∧ (128 ≤ c2 ∧ c2 < 192) ∧ (128 ≤ c3 ∧ c3 < 192) then
        let v := (b - 240) * 262144 + (c1 - 128) * 4096 + (c2 - 128) * 64 + (c3 - 128)
        if v < 65536 ∨ 1114112 ≤ v then none
        else some (v, bs2)
      else none
    | _ => none
  else none

/-- Fuel-indexed worker of the utf-8 decoder: decode one sequence with
`utf8Step` and continue on the remainder.  Each step consumes at least the
lead byte, so a fuel of the byte count never runs out before the input
does. -/
def utf8DecodeAux : Nat → List Nat → Option PyStr
  | _, [] => some []
  | 0, _ :: _ => none
  | fuel + 1, b :: bs =>
    match utf8Step b bs with
    | none => none
    | some (v, rest) => (utf8DecodeAux fuel rest).map (fun r => v :: r)

/-- Python `bytes.decode` with the utf-8 codec under strict errors. -/
def utf8Decode (bs : List Nat) : Option PyStr := utf8DecodeAux bs.length bs

/-- Python `str.encode` with the latin1 codec: each code point below 256
becomes the byte of the same value; any higher code point raises. -/
def latin1Encode : PyStr → Option (List Nat)
  | [] => some []
  | a :: t => if a < 256 then (latin1Encode t).map (fun r => a :: r) else none

/-- Python `bytes.decode` with the latin1 codec: every byte becomes the code
point of the same value; in this embedding of bytes and strings that is
the identity. -/
def latin1Decode (bs : List Nat) : PyStr := bs

/-- The expression `text.encode` latin1 `.decode` utf-8 appearing in
src/app.py lines 140 and 169, the MojibakeRepairer of the spec; `none`
models the raised UnicodeEncodeError or UnicodeDecodeError. -/
def mojibakeRepair (s : PyStr) : Option PyStr :=
  (latin1Encode s).bind utf8Decode

/-- Result of a handler: the JSON body abstracted to the fields the claims
mention, plus the HTTP status code.  A server error carries only the code,
the dynamic exception text being outside the model. -/
inductive AskResult where
  | okResp (response : PyStr) (summary : PyStr)
  | clientError (msg : PyStr) (code : Nat)
  | serverError (code : Nat)
deriving DecidableEq

/-- The handler `ask` of src/app.py lines 119 to 156, with the external
collaborators passed as parameters: `detectLang` is the result of the
language detector (`none` when it raises), `agentOutput` the output field
of the agent response, `summOutput` the data field returned by the summary
model.  A missing question is the empty string, as `data.get` with an
empty default yields.  The summary text goes through the mojibake repair,
whose failure the surrounding try-except turns into the 500 response. -/
def msgNoQuestion : PyStr := [78, 111, 32, 113, 117, 101, 115, 116, 105, 111, 110, 32, 112, 114, 111, 118, 105, 100, 101, 100]

def ask (question : PyStr) (detectLang : Option PyStr)
    (agentOutput : PyStr) (summOutput : PyStr) : AskResult :=
  if question.isEmpty then .clientError msgNoQuestion 400
  else
    match detectLang with
    | none => .serverError 500
    | some _ =>
      match mojibakeRepair summOutput with
      | none => .serverError 500
      | some corrected =>
        .okResp (format_text (remove_markdown agentOutput))
                (format_text (remove_markdown corrected))

/-- Result of the news handler. -/
inductive NewsResult where
  | okNews (news : PyStr)
  | errNews (msg : PyStr) (code : Nat)
deriving DecidableEq

/-- Message of the 400 response of the news handler. -/
def msgLang : PyStr := [76, 97, 110, 103, 117, 97, 103, 101, 32, 115, 101, 108, 101, 99, 116, 105, 111, 110, 32, 105, 115, 32, 114, 101, 113, 117, 105, 114, 101, 100]

/-- The handler `get_news` of src/app.py lines 203 to 227:
validate the language field, then hand the string form of the news model
response (the external collaborator, passed here as `rawModelStr`) to
`clean_and_format_response` and wrap the result. -/
def get_news (language : PyStr) (rawModelStr : PyStr) : NewsResult :=
  if language.isEmpty then .errNews msgLang 400
  else .okNews (clean_and_format_response rawModelStr)

/-- Pipeline the C1 claim describes, word for word: EnvelopeUnwrapper, then
EscapeDecoder, then MojibakeRepairer, then SectionSplitter, then
MarkdownStripper, then ParagraphFormatter.  This definition follows the
claim text, not the source, and exists only to be compared with
`clean_and_format_response`. -/
def newsPipelineClaimed (raw : PyStr) : Option PyStr :=
  (mojibakeRepair (escapeDecode (envelopeUnwrap raw))).map
    (fun m => format_text (remove_markdown (sectionSplit m)))

/-- Message of the 400 response of the health-centers handler. -/
def msgLatLng : PyStr := [76, 97, 116, 105, 116, 117, 100, 101, 32, 97, 110, 100, 32, 108, 111, 110, 103, 105, 116, 117, 100, 101, 32, 97, 114, 101, 32, 114, 101, 113, 117, 105, 114, 101, 100]

/-- Message of the empty-result payload of `get_nearest_health_centers`. -/
def msgNoCenters : PyStr := [78, 111, 32, 104, 101, 97, 108, 116, 104, 32, 99, 101, 110, 116, 101, 114, 115, 32, 102, 111, 117, 110, 100, 32, 110, 101, 97, 114, 98, 121]

/-- Default address used when a place has no vicinity field. -/
def sNoAddress : PyStr := [78, 111, 32, 97, 100, 100, 114, 101, 115, 115, 32, 97, 118, 97, 105, 108, 97, 98, 108, 101]

/-- One entry of the results array of the places API response, restricted
to the fields `get_nearest_health_centers` reads; the coordinates are kept
as opaque integer tokens since the code only passes them through. -/
structure Place where
  name : PyStr
  vicinity : Option PyStr
  lat : Int
  lng : Int
deriving DecidableEq

/-- One health-center object built by `get_nearest_health_centers`. -/
structure Center where
  name : PyStr
  address : PyStr
  latitude : Int
  longitude : Int
deriving DecidableEq

/-- The dictionary comprehension of src/app.py lines 88 to 94 applied to one
place. -/
def mkCenter (p : Place) : Center :=
  { name := p.name
    address := p.vicinity.getD sNoAddress
    latitude := p.lat
    longitude := p.lng }

/-- The function `get_nearest_health_centers` of src/app.py lines 76 to 98,
with the parsed results array of the places response as parameter: an
empty array yields the error payload, otherwise the first five places are
mapped to center objects. -/
def get_nearest_health_centers (places : List Place) : Except PyStr (List Center) :=
  match places with
  | [] => .error msgNoCenters
  | _ :: _ => .ok ((places.take 5).map mkCenter)

/-- Result of the health-centers handler; the route payload type is left
abstract since the handler only forwards it. -/
inductive HCResult (R : Type) where
  | okResp (centers : List Center) (route : R)
  | errResp (msg : PyStr) (code : Nat)

/-- The handler `find_health_centers` of src/app.py lines 176 to 201, with
the external collaborators as parameters: `places` the parsed results of
the places API and `route` what `get_route` would return.  Presence of the
coordinates is tested by truthiness, so the number zero fails the check
exactly like a missing field; the unreachable empty-center case models the
IndexError the try-except would turn into a 500. -/
def find_health_centers {R : Type} (latitude longitude : Option Int)
    (places : List Place) (route : R) : HCResult R :=
  let truthy : Option Int → Bool := fun v =>
    match v with
    | none => false
    | some x => decide (x ≠ 0)
  if !truthy latitude || !truthy longitude then .errResp msgLatLng 400
  else
    match get_nearest_health_centers places with
    | .error e => .errResp e 400
    | .ok [] => .errResp [] 500
    | .ok (c :: cs) => .okResp (c :: cs) route

/-- Code points of the text two-asterisks Title two-asterisks space body,
the bold-removal example of the spec. -/
def tBoldTitle : PyStr := [42, 42, 84, 105, 116, 108, 101, 42, 42, 32, 98, 111, 100, 121]

/-- Code points of the text x space hyphen left-paren space y. -/
def tC3 : PyStr := [120, 32, 45, 40, 32, 121]

/-- Code points of a news payload whose Source line and Date line are
separated by an intervening line X: an http URL a, newline, Source colon
S, newline, X, newline, Date colon D, two newlines, REST. -/
def tC6 : PyStr := [104, 116, 116, 112, 58, 47, 47, 97, 10, 83, 111, 117, 114, 99, 101, 58, 32, 83, 10, 88, 10, 68, 97, 116, 101, 58, 32, 68, 10, 10, 82, 69, 83, 84]

/-- Code points of the text left-paren x right-paren. -/
def tC7 : PyStr := [40, 120, 41]

/-- Code points of the text a space hyphen space b. -/
def tC8 : PyStr := [97, 32, 45, 32, 98]

/-- Code points of the word hello. -/
def tHello : PyStr := [104, 101, 108, 108, 111]

/-- Code points of the text two-asterisks x two-asterisks. -/
def tBoldX : PyStr := [42, 42, 120, 42, 42]

/-- Code points of the language tag en. -/
def tEn : PyStr := [101, 110]

/-! ## Generic helper lemmas -/

theorem dropWhile_eq_self_of (p : Nat → Bool) (s : PyStr)
    (h : (s.head?.all fun c => !p c) = true) : s.dropWhile p = s := by
  cases s with
  | nil => rfl
  | cons a t =>
    have hp : p a = false := by simpa [Option.all] using h
    simp [List.dropWhile_cons, hp]

theorem stripShape_id (p : Nat → Bool) (s : PyStr)
    (h1 : (s.head?.all fun c => !p c) = true)
    (h2 : (s.getLast?.all fun c => !p c) = true) :
    ((s.dropWhile p).reverse.dropWhile p).reverse = s := by
  rw [dropWhile_eq_self_of p s h1]
  rw [dropWhile_eq_self_of p s.reverse (by rw [List.head?_reverse]; exact h2)]
  exact List.reverse_reverse s

theorem pyStripWs_id (s : PyStr)
    (h1 : (s.head?.all fun c => !isPySpace c) = true)
    (h2 : (s.getLast?.all fun c => !isPySpace c) = true) :
    pyStripWs s = s :=
  stripShape_id isPySpace s h1 h2

theorem stripBoth_id (set : List Nat) (s : PyStr)
    (h1 : (s.head?.all fun c => !set.contains c) = true)
    (h2 : (s.getLast?.all fun c => !set.contains c) = true) :
    stripBoth set s = s :=
  stripShape_id (fun c => set.contains c) s h1 h2

theorem map_eq_self_of {f : PyStr → PyStr} {ps : List PyStr}
    (h : ∀ p ∈ ps, f p = p) : ps.map f = ps := by
  induction ps with
  | nil => rfl
  | cons p ps ih =>
    simp only [List.map_cons, h p (by simp)]
    rw [ih (fun q hq => h q (by simp [hq]))]

theorem drop_len_add (m x : PyStr) (i : Nat) :
    (m ++ x).drop (m.length + i) = x.drop i := by
  induction m with
  | nil => simp
  | cons a m ih =>
    have : (a :: m).length + i = (m.length + i) + 1 := by simp [List.length_cons]; omega
    simp only [this, List.cons_append, List.drop_succ_cons]
    exact ih

/-! ## Lemmas about the markdown passes -/

theorem boldMatchLen_ge (s : PyStr) (L : Nat) (h : boldMatchLen s = some L) : 4 ≤ L := by
  match s with
  | [] => simp [boldMatchLen] at h
  | [_] => simp [boldMatchLen] at h
  | a :: b :: t =>
    simp only [boldMatchLen] at h
    split at h
    · rcases Option.map_eq_some'.mp h with ⟨j, _, hj⟩
      omega
    · simp at h

theorem boldMatchLen_none (a : Nat) (t : PyStr) (ha : a ≠ 42) :
    boldMatchLen (a :: t) = none := by
  match t with
  | [] => simp [boldMatchLen]
  | b :: t2 =>
    simp only [boldMatchLen]
    rw [if_neg]
    intro hc
    exact ha hc.1

theorem removeBoldAux_id (f : Nat) (s : PyStr) (h : 42 ∉ s) : removeBoldAux f s = s := by
  induction f generalizing s with
  | zero => rfl
  | succ f ih =>
    cases s with
    | nil => rfl
    | cons a t =>
      have ha : a ≠ 42 := fun hc => h (by simp [hc])
      simp only [removeBoldAux, boldMatchLen_none a t ha]
      rw [ih t (fun hc => h (by simp [hc]))]

theorem removeBold_id (s : PyStr) (h : 42 ∉ s) : removeBold s = s :=
  removeBoldAux_id s.length s h

theorem removeBoldAux_congr (f : Nat) (g : Nat) (s : PyStr)
    (hf : s.length ≤ f) (hg : s.length ≤ g) :
    removeBoldAux f s = removeBoldAux g s := by
  induction f generalizing s g with
  | zero =>
    have : s = [] := List.length_eq_zero.mp (Nat.le_zero.mp hf)
    subst this
    cases g with
    | zero => rfl
    | succ g => rfl
  | succ f ih =>
    cases s with
    | nil =>
      cases g with
      | zero => rfl
      | succ g => rfl
    | cons a t =>
      cases g with
      | zero => simp at hg
      | succ g =>
        simp only [List.length_cons] at hf hg
        simp only [removeBoldAux]
        cases hb : boldMatchLen (a :: t) with
        | none =>
          have ht : t.length ≤ f := by omega
          have ht2 : t.length ≤ g := by omega
          rw [ih g t ht ht2]
        | some L =>
          have hL := boldMatchLen_ge (a :: t) L hb
          have hdl : (List.drop L (a :: t)).length = t.length + 1 - L := by
            rw [List.length_drop, List.length_cons]
          have hlen : (List.drop L (a :: t)).length ≤ f := by omega
          have hlen2 : (List.drop L (a :: t)).length ≤ g := by omega
          exact ih g (List.drop L (a :: t)) hlen hlen2

theorem hasSub_cons (n : PyStr) (a : Nat) (t : PyStr) :
    hasSub n (a :: t) = (isPre n (a :: t) || hasSub n t) := by
  simp only [hasSub, findSub]
  cases hb : isPre n (a :: t) <;> simp [hb]

theorem removeBullet_id (t : PyStr) (h42 : 42 ∉ t) (h45 : hasSub [45, 32] t = false) :
    removeBullet t = t := by
  induction t with
  | nil => rfl
  | cons a t ih =>
    cases t with
    | nil => rfl
    | cons b t2 =>
      have hcond : ¬((a = 42 ∨ a = 45) ∧ b = 32) := by
        rintro ⟨ha, hb⟩
        rcases ha with ha | ha
        · exact h42 (by simp [ha])
        · subst ha; subst hb
          rw [hasSub_cons] at h45
          simp [isPre] at h45
      simp only [removeBullet, if_neg hcond]
      rw [ih (fun hc => h42 (by simp [hc]))]
      rw [hasSub_cons] at h45
      exact (Bool.or_eq_false_iff.mp h45).2

theorem removeSym_id (t : PyStr) (h : ∀ c ∈ t, mdSymbolSet.contains c = false) :
    removeSym t = t := by
  apply List.filter_eq_self.mpr
  intro a ha
  show (!mdSymbolSet.contains a) = true
  rw [h a ha]
  rfl




theorem findCloseBold_append (inner rest : PyStr) (h42 : 42 ∉ inner) (h10 : 10 ∉ inner) :
    findCloseBold (inner ++ 42 :: 42 :: rest) = some inner.length := by
  induction inner with
  | nil => simp [findCloseBold]
  | cons c inner ih =>
    have hc42 : c ≠ 42 := fun h => h42 (by simp [h])
    have hc10 : c ≠ 10 := fun h => h10 (by simp [h])
    rcases hX : inner ++ 42 :: 42 :: rest with _ | ⟨d, u⟩
    · exact absurd hX (by simp)
    · rw [List.cons_append, hX]
      simp only [findCloseBold]
      rw [if_neg (fun hc => hc42 hc.1), if_neg hc10]
      rw [← hX, ih (fun h => h42 (by simp [h])) (fun h => h10 (by simp [h]))]
      simp [List.length_cons]

/-- Claim C2, counterexample: on the spec example input the bold pass of
`remove_markdown` deletes the inner text together with the markers, so the
output is the single word body and the promised text Title-space-body does
not survive. -/
theorem c2_counterexample :
    remove_markdown tBoldTitle = [98, 111, 100, 121] ∧
    hasSub [84, 105, 116, 108, 101] (remove_markdown tBoldTitle) = false := by decide

/-- Claim C2, amended: the bold pass of `remove_markdown` deletes every
minimally-matched double-asterisk span whole, markers and inner text
alike; on the example input the result is body alone, free of asterisks
but also free of the deleted inner text. -/
theorem c2_amended (inner rest : PyStr) (h42 : 42 ∉ inner) (h10 : 10 ∉ inner) :
    removeBold (42 :: 42 :: (inner ++ 42 :: 42 :: rest)) = removeBold rest ∧
    remove_markdown tBoldTitle = [98, 111, 100, 121] := by
  constructor
  · show removeBoldAux (42 :: 42 :: (inner ++ 42 :: 42 :: rest)).length _ = _
    have hlen : (42 :: 42 :: (inner ++ 42 :: 42 :: rest)).length
        = (inner.length + rest.length + 3) + 1 := by
      simp [List.length_cons, List.length_append]
      omega
    rw [hlen]
    have hb : boldMatchLen (42 :: 42 :: (inner ++ 42 :: 42 :: rest))
        = some (inner.length + 4) := by
      simp only [boldMatchLen, if_pos (And.intro rfl rfl)]
      rw [findCloseBold_append inner rest h42 h10]
      rfl
    have hdrop : List.drop (inner.length + 4) (42 :: 42 :: (inner ++ 42 :: 42 :: rest))
        = rest := by
      have h4 : inner.length + 4 = (inner.length + 2) + 1 + 1 := by omega
      rw [h4, List.drop_succ_cons, List.drop_succ_cons, drop_len_add]
      simp
    simp only [removeBoldAux, hb, hdrop]
    show _ = removeBoldAux rest.length rest
    exact removeBoldAux_congr _ _ rest (by omega) (le_refl _)
  · decide

theorem c2_witness :
    removeBold (42 :: 42 :: ([84, 105, 116, 108, 101] ++ 42 :: 42 :: [32, 98, 111, 100, 121]))
      = removeBold [32, 98, 111, 100, 121] ∧
    remove_markdown tBoldTitle = [98, 111, 100, 121] :=
  c2_amended [84, 105, 116, 108, 101] [32, 98, 111, 100, 121] (by decide) (by decide)

/-- Claim C8, counterexample: the bullet pass carries no line anchor, so
the hyphen-space in the middle of the line is removed and does not survive
into the output, contrary to the claim. -/
theorem c8_counterexample :
    remove_markdown tC8 = [97, 32, 98] ∧
    hasSub [45, 32] (remove_markdown tC8) = false := by decide

/-- Claim C8, amended: the bullet pass of `remove_markdown` removes an
asterisk or hyphen followed by one space wherever it occurs, not only at
line starts; in particular a mid-line hyphen-space is removed. -/
theorem c8_amended (y : PyStr) :
    removeBullet ([97, 32, 45, 32] ++ y) = [97, 32] ++ removeBullet y ∧
    remove_markdown tC8 = [97, 32, 98] := by
  constructor
  · show removeBullet (97 :: 32 :: 45 :: 32 :: y) = 97 :: 32 :: removeBullet y
    cases y with
    | nil => decide
    | cons b y2 =>
      simp only [removeBullet]
      rw [if_neg (by decide), if_neg (by decide), if_pos (by decide)]
  · decide

/-- Claim C7, counterexample: with no data= marker in the input the
unconditional outer strip of parentheses and single quotes still runs, so
the parenthesized input comes back changed. -/
theorem c7_counterexample :
    hasSub sDataEq tC7 = false ∧ envelopeUnwrap tC7 = [120] ∧ tC7 ≠ [120] := by decide

/-- Claim C7, amended: when the marker data= is absent the unwrapper does
no marker splitting and cannot raise, but it still strips the outer run of
parentheses and single quotes from the whole input; only inputs not
flanked by such characters come back unchanged. -/
theorem c7_amended (s : PyStr) (h1 : hasSub sDataEq s = false)
    (h2 : (s.head?.all fun c => !parenQuoteSet.contains c) = true)
    (h3 : (s.getLast?.all fun c => !parenQuoteSet.contains c) = true) :
    envelopeUnwrap s = stripBoth parenQuoteSet s ∧ envelopeUnwrap s = s := by
  have he : envelopeUnwrap s = stripBoth parenQuoteSet s := by
    simp [envelopeUnwrap, h1]
  exact ⟨he, by rw [he]; exact stripBoth_id parenQuoteSet s h2 h3⟩

theorem c7_witness :
    envelopeUnwrap tHello = stripBoth parenQuoteSet tHello ∧ envelopeUnwrap tHello = tHello :=
  c7_amended tHello (by decide) (by decide) (by decide)

/-- Claim C9: a zero latitude or zero longitude fails the truthiness test
of the handler, which answers the missing-field 400 error whatever the
geolocation collaborator would have returned. -/
theorem c9_zero_coordinate_rejected {R : Type} (lat lng : Option Int)
    (places : List Place) (route : R) (h : lat = some 0 ∨ lng = some 0) :
    find_health_centers lat lng places route = HCResult.errResp msgLatLng 400 := by
  rcases h with h | h <;> subst h <;> simp [find_health_centers]

theorem c9_witness :
    find_health_centers (some 0) (some 7) ([] : List Place) (0 : Nat)
      = HCResult.errResp msgLatLng 400 :=
  c9_zero_coordinate_rejected (some 0) (some 7) [] 0 (Or.inl rfl)

/-- Claim C10: on a nonempty places response the helper returns the first
five places mapped to center records, hence at most five, with the address
defaulting when the vicinity is missing; the empty response yields the
error payload instead. -/
theorem c10_at_most_five (places : List Place) :
    (match get_nearest_health_centers places with
     | Except.error e => places = [] ∧ e = msgNoCenters
     | Except.ok cs => cs.length ≤ 5 ∧ cs = (places.take 5).map mkCenter ∧
         ∀ p : Place, (mkCenter p).address = p.vicinity.getD sNoAddress) := by
  cases places with
  | nil => exact ⟨rfl, rfl⟩
  | cons p ps =>
    refine ⟨?_, rfl, fun q => rfl⟩
    simp only [List.length_map, List.length_take, List.length_cons]
    omega

/-- Claim C1, amended: the news handler applies exactly the
EnvelopeUnwrapper, EscapeDecoder and SectionSplitter stages to the raw
model output; MojibakeRepairer, MarkdownStripper and ParagraphFormatter
are not applied on this path. -/
theorem c1_amended (language raw : PyStr) (h : language.isEmpty = false) :
    get_news language raw
      = NewsResult.okNews (sectionSplit (escapeDecode (envelopeUnwrap raw))) := by
  simp only [get_news, h, Bool.false_eq_true, if_false]
  rfl

theorem c1_witness :
    get_news tEn tHello
      = NewsResult.okNews (sectionSplit (escapeDecode (envelopeUnwrap tHello))) :=
  c1_amended tEn tHello (by decide)

/-- Claim C1, counterexample: on a raw output that still carries bold
markers the handler returns it with the markers intact, while the pipeline
the claim describes (with MarkdownStripper and ParagraphFormatter at the
end) would have returned the empty string; the two pipelines differ. -/
theorem c1_counterexample :
    get_news tEn tBoldX = NewsResult.okNews tBoldX ∧
    newsPipelineClaimed tBoldX = some [] ∧ tBoldX ≠ ([] : PyStr) := by decide

theorem latin1Encode_small (t : PyStr) (h : ∀ c ∈ t, c < 256) : latin1Encode t = some t := by
  induction t with
  | nil => rfl
  | cons a u ih =>
    have ha : a < 256 := h a (by simp)
    simp only [latin1Encode, if_pos ha]
    rw [ih (fun c hc => h c (by simp [hc]))]
    rfl

theorem utf8DecodeAux_ascii (f : Nat) (t : PyStr) (hf : t.length ≤ f)
    (h : ∀ c ∈ t, c < 128) : utf8DecodeAux f t = some t := by
  induction f generalizing t with
  | zero =>
    have ht : t = [] := List.length_eq_zero.mp (Nat.le_zero.mp hf)
    subst ht
    rfl
  | succ f ih =>
    cases t with
    | nil => rfl
    | cons a u =>
      have ha : a < 128 := h a (by simp)
      have hstep : utf8Step a u = some (a, u) := by
        unfold utf8Step
        rw [if_pos ha]
      simp only [utf8DecodeAux, hstep]
      rw [ih u (by simp [List.length_cons] at hf; omega) (fun c hc => h c (by simp [hc]))]
      rfl

theorem utf8Decode_ascii (t : PyStr) (h : ∀ c ∈ t, c < 128) : utf8Decode t = some t :=
  utf8DecodeAux_ascii t.length t (le_refl _) h

theorem mojibakeRepair_ascii (t : PyStr) (h : ∀ c ∈ t, c < 128) :
    mojibakeRepair t = some t := by
  unfold mojibakeRepair
  rw [latin1Encode_small t (fun c hc => lt_trans (h c hc) (by norm_num))]
  simpa using utf8Decode_ascii t h

/-- Claim C5, counterexample: the plain ascii word hello is an
already-correct string, yet the repair returns it unchanged instead of
raising, and the ask handler answers normally. -/
theorem c5_counterexample :
    mojibakeRepair tHello = some tHello ∧
    ask tHello (some tEn) tHello tHello = AskResult.okResp tHello tHello := by decide

/-- Claim C5, amended: the repair raises exactly when the latin-1
re-encoding of the text fails or yields bytes that are not valid UTF-8
(for instance a lone e-acute, or any character above the latin-1 range),
and the ask handler surfaces that failure as the explicit 500 error; plain
ascii text, though already correct, passes through unchanged without
raising. -/
theorem c5_amended (q a s lang : PyStr) (h1 : q.isEmpty = false)
    (h2 : mojibakeRepair s = none) :
    ask q (some lang) a s = AskResult.serverError 500 ∧
    mojibakeRepair [233] = none ∧ mojibakeRepair [8364] = none ∧
    (∀ t : PyStr, (∀ c ∈ t, c < 128) → mojibakeRepair t = some t) := by
  refine ⟨?_, by decide, by decide, mojibakeRepair_ascii⟩
  unfold ask
  simp only [h1, Bool.false_eq_true, if_false, h2]

theorem c5_witness :
    ask [120] (some tEn) [120] [233] = AskResult.serverError 500 :=
  (c5_amended [120] [120] [233] tEn (by decide) (by decide)).1

/-! ## Round-trip lemmas for the utf-8 codec -/

theorem utf8Step_one (v : Nat) (rest : List Nat) (h : v < 128) :
    utf8Step v rest = some (v, rest) := by
  unfold utf8Step
  rw [if_pos h]

theorem utf8Step_two (v : Nat) (rest : List Nat) (h1 : 128 ≤ v) (h2 : v < 2048) :
    utf8Step (192 + v / 64) ((128 + v % 64) :: rest) = some (v, rest) := by
  unfold utf8Step
  rw [if_neg (by omega), if_neg (by omega), if_pos (by omega)]
  show (if 128 ≤ 128 + v % 64 ∧ 128 + v % 64 < 192 then
          some ((192 + v / 64 - 192) * 64 + (128 + v % 64 - 128), rest)
        else none) = some (v, rest)
  rw [if_pos (by omega)]
  have harith : (192 + v / 64 - 192) * 64 + (128 + v % 64 - 128) = v := by omega
  rw [harith]

theorem utf8Step_three (v : Nat) (rest : List Nat) (h1 : 2048 ≤ v) (h2 : v < 65536)
    (h3 : ¬(55296 ≤ v ∧ v < 57344)) :
    utf8Step (224 + v / 4096) ((128 + v / 64 % 64) :: (128 + v % 64) :: rest)
      = some (v, rest) := by
  unfold utf8Step
  rw [if_neg (by omega), if_neg (by omega), if_neg (by omega), if_pos (by omega)]
  show (if (128 ≤ 128 + v / 64 % 64 ∧ 128 + v / 64 % 64 < 192) ∧
           (128 ≤ 128 + v % 64 ∧ 128 + v % 64 < 192) then
          let w := (224 + v / 4096 - 224) * 4096 + (128 + v / 64 % 64 - 128) * 64 +
            (128 + v % 64 - 128)
          if w < 2048 ∨ (55296 ≤ w ∧ w < 57344) then none else some (w, rest)
        else none) = some (v, rest)
  rw [if_pos (by omega)]
  have harith : (224 + v / 4096 - 224) * 4096 + (128 + v / 64 % 64 - 128) * 64 +
      (128 + v % 64 - 128) = v := by omega
  show (if (224 + v / 4096 - 224) * 4096 + (128 + v / 64 % 64 - 128) * 64 +
            (128 + v % 64 - 128) < 2048 ∨
          (55296 ≤ (224 + v / 4096 - 224) * 4096 + (128 + v / 64 % 64 - 128) * 64 +
            (128 + v % 64 - 128) ∧
           (224 + v / 4096 - 224) * 4096 + (128 + v / 64 % 64 - 128) * 64 +
            (128 + v % 64 - 128) < 57344) then none
        else some ((224 + v / 4096 - 224) * 4096 + (128 + v / 64 % 64 - 128) * 64 +
          (128 + v % 64 - 128), rest)) = some (v, rest)
  rw [harith, if_neg (by omega)]

theorem utf8Step_four (v : Nat) (rest : List Nat) (h1 : 65536 ≤ v) (h2 : v < 1114112) :
    utf8Step (240 + v / 262144)
      ((128 + v / 4096 % 64) :: (128 + v / 64 % 64) :: (128 + v % 64) :: rest)
      = some (v, rest) := by
  unfold utf8Step
  rw [if_neg (by omega), if_neg (by omega), if_neg (by omega), if_neg (by omega),
      if_pos (by omega)]
  show (if (128 ≤ 128 + v / 4096 % 64 ∧ 128 + v / 4096 % 64 < 192) ∧
           (128 ≤ 128 + v / 64 % 64 ∧ 128 + v / 64 % 64 < 192) ∧
           (128 ≤ 128 + v % 64 ∧ 128 + v % 64 < 192) then
          let w := (240 + v / 262144 - 240) * 262144 + (128 + v / 4096 % 64 - 128) * 4096 +
            (128 + v / 64 % 64 - 128) * 64 + (128 + v % 64 - 128)
          if w < 65536 ∨ 1114112 ≤ w then none else some (w, rest)
        else none) = some (v, rest)
  rw [if_pos (by omega)]
  have harith : (240 + v / 262144 - 240) * 262144 + (128 + v / 4096 % 64 - 128) * 4096 +
      (128 + v / 64 % 64 - 128) * 64 + (128 + v % 64 - 128) = v := by omega
  show (if (240 + v / 262144 - 240) * 262144 + (128 + v / 4096 % 64 - 128) * 4096 +
            (128 + v / 64 % 64 - 128) * 64 + (128 + v % 64 - 128) < 65536 ∨
          1114112 ≤ (240 + v / 262144 - 240) * 262144 + (128 + v / 4096 % 64 - 128) * 4096 +
            (128 + v / 64 % 64 - 128) * 64 + (128 + v % 64 - 128) then none
        else some ((240 + v / 262144 - 240) * 262144 + (128 + v / 4096 % 64 - 128) * 4096 +
          (128 + v / 64 % 64 - 128) * 64 + (128 + v % 64 - 128), rest)) = some (v, rest)
  rw [harith, if_neg (by omega)]

theorem encodeChar_step (v : Nat) (e : List Nat) (rest : List Nat)
    (h : encodeChar v = some e) :
    ∃ b et, e = b :: et ∧ utf8Step b (et ++ rest) = some (v, rest) := by
  unfold encodeChar at h
  split_ifs at h with h1 h2 h3 h4 h5
  · injection h with h
    subst h
    exact ⟨v, [], rfl, utf8Step_one v rest h1⟩
  · injection h with h
    subst h
    exact ⟨192 + v / 64, [128 + v % 64], rfl, utf8Step_two v rest (by omega) h2⟩
  · injection h with h
    subst h
    exact ⟨224 + v / 4096, [128 + v / 64 % 64, 128 + v % 64], rfl,
      utf8Step_three v rest (by omega) h3 h4⟩
  · injection h with h
    subst h
    exact ⟨240 + v / 262144, [128 + v / 4096 % 64, 128 + v / 64 % 64, 128 + v % 64], rfl,
      utf8Step_four v rest (by omega) h5⟩

theorem encodeChar_bytes_lt (v : Nat) (e : List Nat) (h : encodeChar v = some e) :
    ∀ b ∈ e, b < 256 := by
  unfold encodeChar at h
  split_ifs at h with h1 h2 h3 h4 h5 <;> injection h with h <;> subst h <;>
    intro b hb <;> simp only [List.mem_cons, List.not_mem_nil, or_false] at hb
  · omega
  · rcases hb with hb | hb <;> omega
  · rcases hb with hb | hb | hb <;> omega
  · rcases hb with hb | hb | hb | hb <;> omega

theorem utf8Encode_bytes_lt (s : PyStr) (bs : List Nat) (h : utf8Encode s = some bs) :
    ∀ b ∈ bs, b < 256 := by
  induction s generalizing bs with
  | nil =>
    simp only [utf8Encode] at h
    injection h with h
    subst h
    intro b hb
    simp at hb
  | cons v t ih =>
    simp only [utf8Encode] at h
    cases he : encodeChar v with
    | none => rw [he] at h; exact absurd h (by simp)
    | some e =>
      rw [he] at h
      cases hr : utf8Encode t with
      | none => rw [hr] at h; exact absurd h (by simp)
      | some r =>
        rw [hr] at h
        injection h with h
        subst h
        intro b hb
        rcases List.mem_append.mp hb with hb | hb
        · exact encodeChar_bytes_lt v e he b hb
        · exact ih r hr b hb

theorem utf8DecodeAux_encode (f : Nat) (s : PyStr) (bs : List Nat)
    (h : utf8Encode s = some bs) (hf : bs.length ≤ f) : utf8DecodeAux f bs = some s := by
  induction s generalizing bs f with
  | nil =>
    simp only [utf8Encode] at h
    injection h with h
    subst h
    cases f <;> rfl
  | cons v t ih =>
    simp only [utf8Encode] at h
    cases he : encodeChar v with
    | none => rw [he] at h; exact absurd h (by simp)
    | some e =>
      rw [he] at h
      cases hr : utf8Encode t with
      | none => rw [hr] at h; exact absurd h (by simp)
      | some r =>
        rw [hr] at h
        injection h with h
        subst h
        rcases encodeChar_step v e r he with ⟨b, et, hbe, hstep⟩
        subst hbe
        rw [List.cons_append] at hf ⊢
        cases f with
        | zero => simp [List.length_cons] at hf
        | succ f =>
          simp only [utf8DecodeAux, hstep]
          rw [ih f r hr (by simp [List.length_cons, List.length_append] at hf; omega)]
          rfl

theorem utf8_roundtrip (s : PyStr) (bs : List Nat) (h : utf8Encode s = some bs) :
    utf8Decode bs = some s :=
  utf8DecodeAux_encode bs.length s bs h (le_refl _)

/-- Claim C4: a string obtained by utf-8 encoding any Unicode text and
mis-decoding those bytes as latin-1 is repaired exactly to the original
text by the latin-1 re-encode and utf-8 decode of the MojibakeRepairer. -/
theorem c4_mojibake_roundtrip (s : PyStr) (bs : List Nat) (h : utf8Encode s = some bs) :
    mojibakeRepair (latin1Decode bs) = some s := by
  unfold mojibakeRepair latin1Decode
  rw [latin1Encode_small bs (utf8Encode_bytes_lt s bs h)]
  simpa using utf8_roundtrip s bs h

theorem c4_witness : mojibakeRepair (latin1Decode [195, 169]) = some [233] :=
  c4_mojibake_roundtrip [233] [195, 169] (by decide)

/-! ## Lemmas about the news boundary search -/

theorem findDTB_eq (t : PyStr) (j j2 : Nat) (h1 : findSub sNlDate t = some j)
    (h2 : findSub sNlNl (List.drop (j + 7) t) = some j2) : findDTB t = some (j, j2) := by
  induction t generalizing j with
  | nil => simp [findSub, sNlDate] at h1
  | cons a u ih =>
    rw [findSub] at h1
    by_cases hp : isPre sNlDate (a :: u) = true
    · rw [if_pos hp] at h1
      injection h1 with h1
      subst h1
      simp only [findDTB, hp, if_true]
      rw [h2]
    · rw [if_neg hp] at h1
      rcases Option.map_eq_some'.mp h1 with ⟨j0, hj0, hj⟩
      subst hj
      have h2u : findSub sNlNl (List.drop (j0 + 7) u) = some j2 := by
        have harr : j0 + 1 + 7 = (j0 + 7) + 1 := by omega
        rw [harr, List.drop_succ_cons] at h2
        exact h2
      simp only [findDTB, hp, if_false, Bool.false_eq_true]
      rw [ih j0 hj0 h2u]
      rfl

theorem searchEnd_cons_of_match (a : Nat) (t : PyStr) (L : Nat)
    (h : matchFrom (a :: t) = some L) : searchEnd (a :: t) = some L := by
  simp only [searchEnd, h]

theorem matchFrom_newsShape (m r : PyStr) (j j2 : Nat)
    (hdtb : findDTB (m ++ 10 :: 68 :: 97 :: 116 :: 101 :: 58 :: 32 :: 68 :: 10 :: 10 :: r)
      = some (j, j2)) :
    matchFrom (104 :: 116 :: 116 :: 112 :: 58 :: 47 :: 47 :: 97 :: 10 :: 83 :: 111 :: 117 ::
        114 :: 99 :: 101 :: 58 ::
        (m ++ 10 :: 68 :: 97 :: 116 :: 101 :: 58 :: 32 :: 68 :: 10 :: 10 :: r))
      = some (16 + j + 7 + j2 + 2) := by
  have hm : matchFrom (104 :: 116 :: 116 :: 112 :: 58 :: 47 :: 47 :: 97 :: 10 :: 83 :: 111 ::
      117 :: 114 :: 99 :: 101 :: 58 ::
      (m ++ 10 :: 68 :: 97 :: 116 :: 101 :: 58 :: 32 :: 68 :: 10 :: 10 :: r))
      = (match findDTB (m ++ 10 :: 68 :: 97 :: 116 :: 101 :: 58 :: 32 :: 68 :: 10 :: 10 :: r)
         with
         | none => none
         | some (j, j2) => some (4 + 0 + 3 + 1 + 1 + 7 + j + 7 + j2 + 2)) := rfl
  rw [hm, hdtb]

/-- Claim C6, counterexample: in the text http URL a, newline, Source
colon S, newline, X, newline, Date colon D, blank line, REST, a whole line
X stands between the Source line and the Date line, yet the DOTALL search
still finds a boundary ending at offset 30 and the splitter emits the
hundred-dash separator instead of returning the trimmed text whole. -/
theorem c6_counterexample :
    searchEnd tC6 = some 30 ∧
    sectionSplit tC6 = (tC6.take 28) ++ [10, 10] ++ dashes100 ++ [10, 10] ++ [82, 69, 83, 84] ∧
    sectionSplit tC6 ≠ pyStripWs tC6 := by decide

/-- Claim C6, amended: the split point is the end offset of the first
match of the pattern URL, newline, Source colon, lazy any-text, newline
Date colon space, lazy any-text, double newline; because the search runs
under DOTALL the lazy spans may cross line boundaries, so arbitrary
material between the Source line and the Date line (and between the Date
line and the blank line) does not prevent the boundary.  Here the filler
between Source colon and the newline-Date block is any text whose first
newline-Date occurrence is at its end, and the match ends two characters
after the first double newline following it. -/
theorem c6_amended (m r : PyStr)
    (h : findSub sNlDate
      (m ++ 10 :: 68 :: 97 :: 116 :: 101 :: 58 :: 32 :: 68 :: 10 :: 10 :: r)
      = some m.length) :
    searchEnd (104 :: 116 :: 116 :: 112 :: 58 :: 47 :: 47 :: 97 :: 10 :: 83 :: 111 :: 117 ::
        114 :: 99 :: 101 :: 58 ::
        (m ++ 10 :: 68 :: 97 :: 116 :: 101 :: 58 :: 32 :: 68 :: 10 :: 10 :: r))
      = some (26 + m.length) := by
  have h2 : findSub sNlNl
      (List.drop (m.length + 7)
        (m ++ 10 :: 68 :: 97 :: 116 :: 101 :: 58 :: 32 :: 68 :: 10 :: 10 :: r))
      = some 1 := by
    rw [drop_len_add m _ 7]
    rfl
  have hdtb := findDTB_eq _ m.length 1 h h2
  have hmf := matchFrom_newsShape m r m.length 1 hdtb
  apply searchEnd_cons_of_match
  rw [hmf]
  congr 1
  omega

theorem c6_witness :
    searchEnd (104 :: 116 :: 116 :: 112 :: 58 :: 47 :: 47 :: 97 :: 10 :: 83 :: 111 :: 117 ::
        114 :: 99 :: 101 :: 58 ::
        (([32, 83, 10, 88] : PyStr) ++ 10 :: 68 :: 97 :: 116 :: 101 :: 58 :: 32 :: 68 :: 10 ::
          10 :: ([82, 69, 83, 84] : PyStr)))
      = some (26 + List.length ([32, 83, 10, 88] : PyStr)) :=
  c6_amended [32, 83, 10, 88] [82, 69, 83, 84] (by decide)

/-! ## Lemmas for the idempotence claim -/

theorem collapseNl_id (s : PyStr) (h : 10 ∉ s) : collapseNl s = s := by
  induction s with
  | nil => rfl
  | cons a t ih =>
    cases t with
    | nil => rfl
    | cons b t2 =>
      have ha : a ≠ 10 := fun hc => h (by simp [hc])
      simp only [collapseNl]
      rw [if_neg (show ¬(a = 10 ∧ b = 10) from fun hcc => ha hcc.1)]
      rw [ih (fun hc => h (List.mem_cons_of_mem a hc))]

theorem collapseNl_append (p x : PyStr) (hp : 10 ∉ p) :
    collapseNl (p ++ x) = p ++ collapseNl x := by
  induction p with
  | nil => simp
  | cons a p2 ih =>
    have ha : a ≠ 10 := fun hc => hp (by simp [hc])
    rcases hq : p2 ++ x with _ | ⟨b, u⟩
    · have hp2 : p2 = [] := (List.append_eq_nil.mp hq).1
      have hx : x = [] := (List.append_eq_nil.mp hq).2
      subst hp2
      subst hx
      rfl
    · rw [List.cons_append, hq]
      simp only [collapseNl]
      rw [if_neg (show ¬(a = 10 ∧ b = 10) from fun hcc => ha hcc.1)]
      rw [← hq, ih (fun hc => hp (List.mem_cons_of_mem a hc))]
      rfl

theorem joinWith_cons_head (sep : PyStr) (c : Nat) (q2 : PyStr) (ps : List PyStr) :
    ∃ u, joinWith sep ((c :: q2) :: ps) = c :: u := by
  cases ps with
  | nil => exact ⟨q2, rfl⟩
  | cons w ws =>
    exact ⟨q2 ++ sep ++ joinWith sep (w :: ws), by simp [joinWith, List.append_assoc]⟩

theorem collapseNl_joinWith (ps : List PyStr) (h : ∀ p ∈ ps, p ≠ [] ∧ 10 ∉ p) :
    collapseNl (joinWith sNlNl ps) = joinWith [10] ps := by
  induction ps with
  | nil => rfl
  | cons p ps2 ih =>
    cases ps2 with
    | nil => exact collapseNl_id p (h p (by simp)).2
    | cons q ps3 =>
      obtain ⟨hq1, hq2⟩ := h q (by simp)
      obtain ⟨hp1, hp2⟩ := h p (by simp)
      rcases q with _ | ⟨c, q2⟩
      · exact absurd rfl hq1
      have hc : c ≠ 10 := fun hcc => hq2 (by simp [hcc])
      rcases joinWith_cons_head sNlNl c q2 ps3 with ⟨u, hu⟩
      have step1 : joinWith sNlNl (p :: (c :: q2) :: ps3)
          = p ++ (10 :: 10 :: joinWith sNlNl ((c :: q2) :: ps3)) := by
        show p ++ sNlNl ++ joinWith sNlNl ((c :: q2) :: ps3) = _
        simp [sNlNl, List.append_assoc]
      have step2 : collapseNl (10 :: 10 :: joinWith sNlNl ((c :: q2) :: ps3))
          = 10 :: collapseNl (joinWith sNlNl ((c :: q2) :: ps3)) := by
        rw [hu]
        have e1 : collapseNl (10 :: 10 :: c :: u) = collapseNl (10 :: c :: u) := rfl
        have e2 : collapseNl (10 :: c :: u)
            = if (10 : Nat) = 10 ∧ c = 10 then collapseNl (c :: u)
              else 10 :: collapseNl (c :: u) := rfl
        rw [e1, e2, if_neg (show ¬((10 : Nat) = 10 ∧ c = 10) from fun hcc => hc hcc.2)]
      rw [step1, collapseNl_append p _ hp2, step2,
          ih (fun w hw => h w (List.mem_cons_of_mem p hw))]
      show p ++ (10 :: joinWith [10] ((c :: q2) :: ps3))
          = p ++ [10] ++ joinWith [10] ((c :: q2) :: ps3)
      simp [List.append_assoc]

theorem splitNl_noNl (p : PyStr) (h : 10 ∉ p) : splitNl p = [p] := by
  induction p with
  | nil => rfl
  | cons a t ih =>
    have ha : a ≠ 10 := fun hc => h (by simp [hc])
    simp only [splitNl, if_neg ha]
    rw [ih (fun hc => h (List.mem_cons_of_mem a hc))]

theorem splitNl_append (p x : PyStr) (h : 10 ∉ p) :
    splitNl (p ++ 10 :: x) = p :: splitNl x := by
  induction p with
  | nil => simp [splitNl]
  | cons a t ih =>
    have ha : a ≠ 10 := fun hc => h (by simp [hc])
    rw [List.cons_append]
    simp only [splitNl, if_neg ha]
    rw [ih (fun hc => h (List.mem_cons_of_mem a hc))]

theorem splitNl_joinWith (ps : List PyStr) (h : ∀ p ∈ ps, 10 ∉ p) (hne : ps ≠ []) :
    splitNl (joinWith [10] ps) = ps := by
  induction ps with
  | nil => exact absurd rfl hne
  | cons p ps2 ih =>
    cases ps2 with
    | nil => exact splitNl_noNl p (h p (by simp))
    | cons q ps3 =>
      have step1 : joinWith [10] (p :: q :: ps3) = p ++ 10 :: joinWith [10] (q :: ps3) := by
        show p ++ [10] ++ joinWith [10] (q :: ps3) = _
        simp [List.append_assoc]
      rw [step1, splitNl_append p _ (h p (by simp)),
          ih (fun w hw => h w (List.mem_cons_of_mem p hw)) (by simp)]

theorem joinWith_ne_nil (sep : PyStr) (ps : List PyStr)
    (h : ∀ p ∈ ps, p ≠ []) (hne : ps ≠ []) : joinWith sep ps ≠ [] := by
  cases ps with
  | nil => exact absurd rfl hne
  | cons p ps2 =>
    cases ps2 with
    | nil => exact h p (by simp)
    | cons q ps3 =>
      show p ++ sep ++ joinWith sep (q :: ps3) ≠ []
      intro hc
      rcases List.append_eq_nil.mp hc with ⟨hc1, _⟩
      exact h p (by simp) (List.append_eq_nil.mp hc1).1

theorem joinWith_head_all (sep : PyStr) (f : Nat → Bool) (ps : List PyStr)
    (h : ∀ p ∈ ps, p ≠ [] ∧ (p.head?.all f) = true) :
    ((joinWith sep ps).head?.all f) = true := by
  cases ps with
  | nil => rfl
  | cons p ps2 =>
    obtain ⟨hp1, hp2⟩ := h p (by simp)
    rcases p with _ | ⟨a, p2⟩
    · exact absurd rfl hp1
    cases ps2 with
    | nil => exact hp2
    | cons q ps3 =>
      show (((a :: p2) ++ sep ++ joinWith sep (q :: ps3)).head?.all f) = true
      simpa using hp2

theorem joinWith_getLast_all (sep : PyStr) (f : Nat → Bool) (ps : List PyStr)
    (h : ∀ p ∈ ps, p ≠ [] ∧ (p.getLast?.all f) = true) :
    ((joinWith sep ps).getLast?.all f) = true := by
  induction ps with
  | nil => rfl
  | cons p ps2 ih =>
    cases ps2 with
    | nil => exact (h p (by simp)).2
    | cons q ps3 =>
      have hjw2 : ((joinWith sep (q :: ps3)).getLast?.all f) = true :=
        ih (fun w hw => h w (List.mem_cons_of_mem p hw))
      have hne : joinWith sep (q :: ps3) ≠ [] :=
        joinWith_ne_nil sep (q :: ps3) (fun w hw => (h w (List.mem_cons_of_mem p hw)).1)
          (by simp)
      show (((p ++ sep) ++ joinWith sep (q :: ps3)).getLast?.all f) = true
      rw [List.getLast?_append]
      rcases ho : (joinWith sep (q :: ps3)).getLast? with _ | c
      · exact absurd (List.getLast?_eq_none_iff.mp ho) hne
      · rw [ho] at hjw2
        simpa [Option.or] using hjw2

theorem filter_nonEmpty_eq_self (ps : List PyStr) (h : ∀ p ∈ ps, p ≠ []) :
    ps.filter (fun p => !p.isEmpty) = ps := by
  apply List.filter_eq_self.mpr
  intro p hp
  show (!p.isEmpty) = true
  rcases p with _ | ⟨a, p2⟩
  · exact absurd rfl (h [] hp)
  · rfl

/-- Claim C3, counterexample: the composition of MarkdownStripper and
ParagraphFormatter is not idempotent even on its own output: starting
from the text x space hyphen left-paren space y, one application yields
x space hyphen space y (the parenthesis pass exposes a fresh
hyphen-space), and a second application removes that hyphen-space, so the
second application is not a no-op on the output of the first. -/
theorem c3_counterexample :
    format_text (remove_markdown (format_text (remove_markdown tC3)))
      ≠ format_text (remove_markdown tC3) := by decide

/-- Claim C3, amended: the composition of MarkdownStripper and
ParagraphFormatter fixes every text of the CleanedText shape (nonempty
single-line paragraphs without leading or trailing whitespace, joined by
exactly one blank line) that additionally contains none of the markdown
punctuation characters and no hyphen-space pair; without the last
condition the bullet pass can strike text on the second application, as
the counterexample shows. -/
theorem c3_amended (ps : List PyStr) (h0 : ps ≠ [])
    (h1 : ∀ p ∈ ps, p ≠ [] ∧ 10 ∉ p ∧ (p.head?.all fun c => !isPySpace c) = true ∧
      (p.getLast?.all fun c => !isPySpace c) = true)
    (h2 : ∀ c ∈ joinWith sNlNl ps, mdSymbolSet.contains c = false)
    (h3 : hasSub [45, 32] (joinWith sNlNl ps) = false) :
    format_text (remove_markdown (joinWith sNlNl ps)) = joinWith sNlNl ps := by
  have h42 : 42 ∉ joinWith sNlNl ps := by
    intro hc
    have := h2 42 hc
    simp [mdSymbolSet] at this
  have hbold : removeBold (joinWith sNlNl ps) = joinWith sNlNl ps :=
    removeBold_id _ h42
  have hbul : removeBullet (joinWith sNlNl ps) = joinWith sNlNl ps :=
    removeBullet_id _ h42 h3
  have hsym : removeSym (joinWith sNlNl ps) = joinWith sNlNl ps :=
    removeSym_id _ h2
  have hcol : collapseNl (joinWith sNlNl ps) = joinWith [10] ps :=
    collapseNl_joinWith ps (fun p hp => ⟨(h1 p hp).1, (h1 p hp).2.1⟩)
  have hstrip : pyStripWs (joinWith [10] ps) = joinWith [10] ps :=
    pyStripWs_id _
      (joinWith_head_all [10] _ ps (fun p hp => ⟨(h1 p hp).1, (h1 p hp).2.2.1⟩))
      (joinWith_getLast_all [10] _ ps (fun p hp => ⟨(h1 p hp).1, (h1 p hp).2.2.2⟩))
  have hsplit : splitNl (joinWith [10] ps) = ps :=
    splitNl_joinWith ps (fun p hp => (h1 p hp).2.1) h0
  have hmap : ps.map pyStripWs = ps :=
    map_eq_self_of (fun p hp => pyStripWs_id p (h1 p hp).2.2.1 (h1 p hp).2.2.2)
  have hfil : ps.filter (fun p => !p.isEmpty) = ps :=
    filter_nonEmpty_eq_self ps (fun p hp => (h1 p hp).1)
  show format_text (pyStripWs (collapseNl (removeSym (removeBullet
    (removeBold (joinWith sNlNl ps)))))) = joinWith sNlNl ps
  rw [hbold, hbul, hsym, hcol, hstrip]
  show joinWith sNlNl (((splitNl (joinWith [10] ps)).map pyStripWs).filter
    (fun p => !p.isEmpty)) = joinWith sNlNl ps
  rw [hsplit, hmap, hfil]

theorem c3_witness :
    format_text (remove_markdown (joinWith sNlNl [[72, 105], [89, 111]]))
      = joinWith sNlNl [[72, 105], [89, 111]] :=
  c3_amended [[72, 105], [89, 111]] (by decide) (by decide) (by decide) (by decide)

theorem c8_witness :
    removeBullet ([97, 32, 45, 32] ++ [98]) = [97, 32] ++ removeBullet [98] ∧
    remove_markdown tC8 = [97, 32, 98] :=
  c8_amended [98]

theorem c10_witness :
    (match get_nearest_health_centers ([] : List Place) with
     | Except.error e => ([] : List Place) = [] ∧ e = msgNoCenters
     | Except.ok cs => cs.length ≤ 5 ∧ cs = (([] : List Place).take 5).map mkCenter ∧
         ∀ p : Place, (mkCenter p).address = p.vicinity.getD sNoAddress) :=
  c10_at_most_five []
